import Mathlib

/-!
Verification of the rate-limited task queue (`pkg/utils/taskqueue.go`) and the
composite-type generator metadata (`pkg/composite/meta/meta.go`) of the
ingress-gce repository, against its natural-language specification.

The task queue delegates storage to a deduplicating work queue and a per-key
rate limiter (external collaborators); those collaborators are modelled from
the specification's contract (spec section 4.1), while everything in
`taskqueue.go` and `meta.go` is embedded directly from the source.
-/

namespace TaskQueue

/-- Operations the worker loop issues against the underlying work queue after
a `sync` call. Mirrors the calls made in the body of
`PeriodicTaskQueue.Run` (`taskqueue.go`): `AddRateLimited`, `Forget`, `Done`. -/
inductive QueueOp where
  | addRateLimited (key : String)
  | forget (key : String)
  | done (key : String)
  deriving DecidableEq, Repr

/-- The queue-operation trace of one iteration of `PeriodicTaskQueue.Run`
after `Get` returned `key` and `t.sync(key)` returned `syncRes`
(`some e` = a non-nil error `e`, `none` = nil). Embeds the `if err := t.sync
... else ...` body of `Run`: on error, `AddRateLimited(key)`; on success,
`Forget(key)`; in both cases `Done(key)` afterwards. The error value is
logged only; it does not appear in the result. -/
def runStep (syncRes : Option String) (key : String) : List QueueOp :=
  match syncRes with
  | some _ => [QueueOp.addRateLimited key, QueueOp.done key]
  | none => [QueueOp.forget key, QueueOp.done key]

/-- Modelled from the spec: section 4.1 `Add(key)` of the deduplicating work
queue (`workqueue.RateLimitingInterface`, external to this repository):
"inserts key into PendingSet if absent; no-op if already pending".
The pending set is represented as the list of pending keys in arrival order. -/
def queueAdd (pending : List String) (key : String) : List String :=
  if key ∈ pending then pending else pending ++ [key]

/-- The loop body of `PeriodicTaskQueue.Enqueue` (`taskqueue.go`): for each
object in order, apply the key function; on extraction failure the Go code
logs and executes `return`, ending the whole call (the failing object and
every remaining object are not enqueued); on success, `t.queue.Add(key)`. -/
def enqueueLoop {α : Type} (keyFunc : α → Except String String)
    (pending : List String) : List α → List String
  | [] => pending
  | obj :: rest =>
    match keyFunc obj with
    | Except.error _ => pending
    | Except.ok key => enqueueLoop keyFunc (queueAdd pending key) rest

/-- One draining pass of the `Run` loop over the current pending keys, with
no concurrent producer: each `Get` returns the next pending key, `sync` is
invoked on it, and the per-iteration queue operations of `runStep` follow.
Returns the list of keys `sync` was invoked on (in dispatch order) together
with the emitted queue-operation trace. -/
def runDrain (sync : String → Option String) : List String → List String × List QueueOp
  | [] => ([], [])
  | key :: rest =>
    let ops := runStep (sync key) key
    let (tr, ops') := runDrain sync rest
    (key :: tr, ops ++ ops')

/-- Modelled from the spec: per-key `RateLimiterState` (the pluggable
`workqueue.RateLimiter`, external to this repository), abstracted to the
consecutive-failure count that governs the backoff delay: `0` is the base
state. `Forget(key)` resets the key's state to base; `AddRateLimited(key)`
advances it by one step; `Done` does not touch limiter state. -/
def applyOp (f : String → Nat) : QueueOp → (String → Nat)
  | QueueOp.forget k => fun k' => if k' = k then 0 else f k'
  | QueueOp.addRateLimited k => fun k' => if k' = k then f k + 1 else f k'
  | QueueOp.done _ => f

/-- Apply a trace of queue operations to the rate-limiter state in order. -/
def applyOps (f : String → Nat) (ops : List QueueOp) : String → Nat :=
  ops.foldl applyOp f

/-- Modelled from the spec: the domain of objects handed to `Enqueue`.
The default key extractor derives a key from a namespaced identity
(namespace + name); an object carrying no such identity makes extraction
fail ("no key derivable"). -/
inductive Obj where
  | withMeta (ns name : String)
  | invalid
  deriving DecidableEq, Repr

/-- Modelled from the spec: the package-level default `KeyFunc`
(`cache.DeletionHandlingMetaNamespaceKeyFunc`, external to this repository):
derives the key `namespace + "/" + name` (just `name` for the empty
namespace) and fails on an object with no derivable key. -/
def KeyFunc : Obj → Except String String
  | Obj.withMeta ns name => Except.ok (if ns = "" then name else ns ++ "/" ++ name)
  | Obj.invalid => Except.error "object has no meta"

/-- The `PeriodicTaskQueue` struct (`taskqueue.go`), with the underlying work
queue represented by its pending-key list and the worker-done channel and
logging fields omitted (they carry no data). -/
structure PeriodicTaskQueue where
  resource : String
  keyFunc : Obj → Except String String
  pending : List String
  sync : String → Option String

/-- `PeriodicTaskQueue.Enqueue` (`taskqueue.go`): runs the enqueue loop with
this instance's key function over the given objects. -/
def PeriodicTaskQueue.Enqueue (t : PeriodicTaskQueue) (objs : List Obj) : PeriodicTaskQueue :=
  { t with pending := enqueueLoop t.keyFunc t.pending objs }

/-- `NewPeriodicTaskQueueWithLimiter` (`taskqueue.go`): builds the (named or
unnamed) rate-limiting queue, then returns a `PeriodicTaskQueue` whose
`keyFunc` field is the package-level `KeyFunc` — the constructor offers no
override parameter. The rate limiter and queue name only affect backoff
delays and metrics, not the fields modelled here. -/
def NewPeriodicTaskQueueWithLimiter (_name resource : String)
    (syncFn : String → Option String) : PeriodicTaskQueue :=
  { resource := resource, keyFunc := KeyFunc, pending := [], sync := syncFn }

/-- `NewPeriodicTaskQueue` (`taskqueue.go`): delegates to
`NewPeriodicTaskQueueWithLimiter` with the default controller rate limiter. -/
def NewPeriodicTaskQueue (name resource : String)
    (syncFn : String → Option String) : PeriodicTaskQueue :=
  NewPeriodicTaskQueueWithLimiter name resource syncFn

/-- Control state of the worker running `PeriodicTaskQueue.Run`: at the top
of the loop waiting on `Get`, inside a `t.sync(key)` call, or returned. -/
inductive WorkerPhase where
  | running
  | syncing (key : String)
  | stopped
  deriving DecidableEq, Repr

/-- Joint state of a `PeriodicTaskQueue`, its worker running `Run`, and one
caller of `Shutdown`. `pending` is the work queue's pending-key list;
`shutDown` is the queue's closed mark set by `queue.ShutDown()`; `workerDone`
records whether the worker has executed `close(t.workerDone)`;
`shutdownCalled` / `shutdownReturned` track the `Shutdown()` caller's
progress; `syncStarts` lists the keys on which `t.sync` has been invoked, in
invocation order. -/
structure SysState where
  pending : List String
  shutDown : Bool
  workerDone : Bool
  worker : WorkerPhase
  shutdownCalled : Bool
  shutdownReturned : Bool
  syncStarts : List String
  deriving DecidableEq, Repr

/-- Interleaving semantics of producers, the `Run` worker, and a `Shutdown`
caller. Queue behavior (`Get`/`ShutDown`) is modelled from the spec,
section 4.1: `ShutDown()` "marks the queue closed; any blocked or future
`Get()` returns the closed flag with no key"; a producer `Add` after close is
accepted but never dispatched. The worker steps embed the body of
`PeriodicTaskQueue.Run`: on `Get` returning a key it invokes `sync`; on `Get`
reporting closed it closes `workerDone` and returns. `Shutdown` first calls
`queue.ShutDown()` and only then can observe the closed `workerDone` channel
and return. -/
inductive Step : SysState → SysState → Prop where
  | enqueueAdd (s : SysState) (key : String) :
      Step s { s with pending := queueAdd s.pending key }
  | getItem (s : SysState) (key : String) (rest : List String)
      (hw : s.worker = WorkerPhase.running)
      (hq : s.shutDown = false)
      (hp : s.pending = key :: rest) :
      Step s { s with worker := WorkerPhase.syncing key, pending := rest,
                      syncStarts := s.syncStarts ++ [key] }
  | syncReturnOk (s : SysState) (key : String)
      (hw : s.worker = WorkerPhase.syncing key) :
      Step s { s with worker := WorkerPhase.running }
  | syncReturnErr (s : SysState) (key : String)
      (hw : s.worker = WorkerPhase.syncing key) :
      Step s { s with worker := WorkerPhase.running,
                      pending := queueAdd s.pending key }
  | getClosed (s : SysState)
      (hw : s.worker = WorkerPhase.running)
      (hq : s.shutDown = true) :
      Step s { s with worker := WorkerPhase.stopped, workerDone := true }
  | shutdownMarksClosed (s : SysState)
      (hc : s.shutdownCalled = false) :
      Step s { s with shutDown := true, shutdownCalled := true }
  | shutdownReturns (s : SysState)
      (hc : s.shutdownCalled = true)
      (hd : s.workerDone = true)
      (hr : s.shutdownReturned = false) :
      Step s { s with shutdownReturned := true }

/-- Initial state: freshly constructed queue with `Run` started. -/
def initState : SysState :=
  { pending := [], shutDown := false, workerDone := false,
    worker := WorkerPhase.running, shutdownCalled := false,
    shutdownReturned := false, syncStarts := [] }

/-- States reachable from the initial state by interleaved steps. -/
def Reachable (s : SysState) : Prop :=
  Relation.ReflTransGen Step initState s

end TaskQueue

namespace CompositeMeta

/-- The `ApiService` struct (`meta.go`): data for generating a composite type
and helpers for one API service. `Fields` recursively holds the struct
fields, themselves represented as `ApiService` values. -/
inductive ApiService where
  | mk (Name JsonName : String) (JsonStringOverride : Bool)
       (GoType VarName : String) (Fields : List ApiService)

/-- `Name` field accessor. -/
def ApiService.Name : ApiService → String
  | ApiService.mk n _ _ _ _ _ => n

/-- `JsonName` field accessor. -/
def ApiService.JsonName : ApiService → String
  | ApiService.mk _ j _ _ _ _ => j

/-- `JsonStringOverride` field accessor. -/
def ApiService.JsonStringOverride : ApiService → Bool
  | ApiService.mk _ _ o _ _ _ => o

/-- `GoType` field accessor. -/
def ApiService.GoType : ApiService → String
  | ApiService.mk _ _ _ g _ _ => g

/-- `VarName` field accessor. -/
def ApiService.VarName : ApiService → String
  | ApiService.mk _ _ _ _ v _ => v

/-- `Fields` field accessor. -/
def ApiService.Fields : ApiService → List ApiService
  | ApiService.mk _ _ _ _ _ f => f

/-- The `MainServices` map (`meta.go`): service name to k8s-cloud-provider
wrapper name. All other entries in the source are commented out. -/
def MainServices : List (String × String) := [("BackendService", "BackendServices")]

/-- Go map lookup `MainServices[name]`, returning the value when present. -/
def mainServicesLookup (name : String) : Option String :=
  (MainServices.find? (fun p => p.1 == name)).map Prod.snd

/-- `ApiService.IsMainService` (`meta.go`): `_, found := MainServices[Name];
return found`. -/
def IsMainService (apiService : ApiService) : Bool :=
  (mainServicesLookup apiService.Name).isSome

/-- `ApiService.GetCloudProviderName` (`meta.go`): looks the receiver's name
up in `MainServices` and returns the wrapper name; when the name is absent
the Go code panics, modelled as `none`. -/
def GetCloudProviderName (apiService : ApiService) : Option String :=
  mainServicesLookup apiService.Name

/-- `createVarName` (`meta.go`): converts the service name to camelcase by
lower-casing the first rune (`unicode.ToLower`, embedded as `Char.toLower`)
and leaving the rest of the runes unchanged; the empty string maps to
itself. -/
def createVarName (str : String) : String :=
  match str.data with
  | [] => str
  | c :: rest => String.mk (Char.toLower c :: rest)

/-- `strings.Title(prop)` as applied in `populateApiServices` (`meta.go`):
JSON property names are single-word identifiers without separators, so
title-casing reduces to upper-casing the first rune. -/
def stringsTitle (s : String) : String :=
  match s.data with
  | [] => s
  | c :: rest => String.mk (Char.toUpper c :: rest)

/-- A JSON property-description object as consumed by `getGoType`
(`meta.go`): the fields it inspects are `$ref`, `type`, `format`, `items`
and `additionalProperties` (absent keys modelled as `none`). -/
inductive JField where
  | mk (ref : Option String) (jtype : Option String) (format : Option String)
       (items : Option JField) (addlProps : Option JField)

/-- `getGoType` (`meta.go`): determines the Go type for a property by
recursively descending the JSON description, appending newly referenced type
names to `typesQueue`. Returns `(propType, typesQueue, override, err)`;
`none` models the panics inside `getGoType` itself (`panic(nil)` when a
descended-into value is not a JSON object — e.g. an `array` without `items`
— and the type assertion failure when `type` is absent and the final branch
asserts it to a string). `err = true` models the non-nil error returned when
`type` is the empty string. The trailing check sets `override` when the
outer `type` is `"string"` but the computed Go type is not. -/
def getGoType : JField → List String → Option (String × List String × Bool × Bool)
  | JField.mk ref jtype format items addlProps, typesQueue =>
    let base : Option (String × List String × Bool × Bool) :=
      match ref with
      | some refName => some ("*" ++ refName, typesQueue ++ [refName], false, false)
      | none =>
        if jtype = some "array" then
          match items with
          | none => none
          | some it =>
            match getGoType it typesQueue with
            | none => none
            | some (t, q, o, e) => some ("[]" ++ t, q, o, e)
        else if jtype = some "object" then
          match addlProps with
          | some ap =>
            match getGoType ap typesQueue with
            | none => none
            | some (t, q, o, e) => some ("map[string]" ++ t, q, o, e)
          | none => some ("map[string]string", typesQueue, false, false)
        else
          match format with
          | some fmt =>
            some ((if fmt = "byte" then "string"
                   else if fmt = "float" then "float64"
                   else if fmt = "int32" then "int64"
                   else fmt), typesQueue, false, false)
          | none =>
            match jtype with
            | none => none
            | some t =>
              if t = "" then some ("", typesQueue, false, true)
              else some ((if t = "boolean" then "bool" else t), typesQueue, false, false)
    match base with
    | none => none
    | some (pt, q, o, e) =>
      some (pt, q, (if jtype = some "string" ∧ pt ≠ "string" then true else o), e)

/-- Ordering on services used by both `sort.Slice` calls in
`populateApiServices` (`meta.go`), which compare the `Name` fields. -/
def svcLE (a b : ApiService) : Prop := a.Name ≤ b.Name

instance : DecidableRel svcLE :=
  fun a b => inferInstanceAs (Decidable (a.Name ≤ b.Name))

instance : IsTotal ApiService svcLE := ⟨fun a b => le_total a.Name b.Name⟩

instance : IsTrans ApiService svcLE := ⟨fun _ _ _ hab hbc => le_trans hab hbc⟩

/-- The field loop of `populateApiServices` (`meta.go`): for each property
(in map-iteration order), build the field's `ApiService` via `getGoType`,
threading `typesQueue`; `none` models a panic (from `getGoType` or from the
`if err != nil` check in the loop). -/
def processFields : List (String × JField) → List String →
    Option (List ApiService × List String)
  | [], typesQueue => some ([], typesQueue)
  | (prop, val) :: rest, typesQueue =>
    match getGoType val typesQueue with
    | none => none
    | some (propType, typesQueue', override, err) =>
      if err then none
      else
        match processFields rest typesQueue' with
        | none => none
        | some (flds, typesQueue'') =>
          some (ApiService.mk (stringsTitle prop) prop override propType "" [] :: flds,
                typesQueue'')

/-- Go map of schema name to its `properties` object, given as an
association list; lookup `result["schemas"][typeName]["properties"]`,
`none` when any step of the chain of assertions fails. -/
def lookupSchema (schemas : List (String × List (String × JField)))
    (typeName : String) : Option (List (String × JField)) :=
  (schemas.find? (fun p => p.1 == typeName)).map Prod.snd

/-- The BFS loop of `populateApiServices` (`meta.go`): pop a type name from
`typesQueue`, skip it if already completed, otherwise look up its schema
(panic — `none` — when absent), build its `ApiService` with fields sorted by
`Name` (the first `sort.Slice`), append it to the accumulator, and continue
with the queue extended by newly discovered types. `fuel` bounds the number
of iterations; `none` on exhaustion. -/
def populateLoop (schemas : List (String × List (String × JField))) :
    Nat → List String → List String → List ApiService → Option (List ApiService)
  | _, [], _, acc => some acc
  | 0, _ :: _, _, _ => none
  | fuel + 1, typeName :: restQueue, completed, acc =>
    if typeName ∈ completed then populateLoop schemas fuel restQueue completed acc
    else
      match lookupSchema schemas typeName with
      | none => none
      | some fields =>
        match processFields fields restQueue with
        | none => none
        | some (flds, newQueue) =>
          let svc := ApiService.mk typeName "" false "" (createVarName typeName)
            (List.insertionSort svcLE flds)
          populateLoop schemas fuel newQueue (typeName :: completed) (acc ++ [svc])

/-- `populateApiServices` (`meta.go`): seed the BFS queue with the keys of
`MainServices`, run the loop, and sort the resulting `AllApiServices` by
`Name` (the final `sort.Slice`). The parsed API file is the `schemas`
argument; `fuel` bounds the BFS. -/
def populateApiServices (schemas : List (String × List (String × JField)))
    (fuel : Nat) : Option (List ApiService) :=
  (populateLoop schemas fuel (MainServices.map Prod.fst) [] []).map
    (List.insertionSort svcLE)

end CompositeMeta

namespace TaskQueue

/-- Helper: the keys `sync` is invoked on during one draining pass are
exactly the pending keys, in order. -/
theorem runDrain_fst (sync : String → Option String) (l : List String) :
    (runDrain sync l).1 = l := by
  induction l with
  | nil => rfl
  | cons key rest ih => simp [runDrain, ih]

/-- C3: when `Sync(key)` returns a non-nil error, the worker loop emits
`AddRateLimited(key)` then `Done(key)`, in that order, and the error value
itself is invisible to callers: the emitted operations do not depend on it
(`Run` and `Enqueue` return nothing, so no error is ever propagated to a
caller of `Enqueue`). -/
theorem run_syncFailure_protocol :
    ∀ (e key : String),
      runStep (some e) key = [QueueOp.addRateLimited key, QueueOp.done key]
      ∧ ∀ e' : String, runStep (some e) key = runStep (some e') key :=
  fun _ _ => ⟨rfl, fun _ => rfl⟩

/-- C4: when `Sync(key)` returns nil, the worker loop emits `Forget(key)`
then `Done(key)`, in that order, and emits no `AddRateLimited(key)` for this
dispatch. -/
theorem run_syncSuccess_protocol :
    ∀ key : String,
      runStep none key = [QueueOp.forget key, QueueOp.done key]
      ∧ QueueOp.addRateLimited key ∉ runStep none key := by
  intro key
  refine ⟨rfl, ?_⟩
  simp [runStep]

/-- C6: the rate-limiter state of a key is reset to the base state `0` by a
successful pass (via `Forget`), advanced by exactly one step — and never
decreased for any key — by a failing pass (via `AddRateLimited`), and a
failure following a success backs off from the base state (count `1`),
exactly as a first failure from a fresh state does. -/
theorem rateLimiter_reset_advance :
    ∀ (f : String → Nat) (key e : String),
      applyOps f (runStep none key) key = 0
      ∧ applyOps f (runStep (some e) key) key = f key + 1
      ∧ (∀ k' : String, f k' ≤ applyOps f (runStep (some e) key) k')
      ∧ applyOps (applyOps f (runStep none key)) (runStep (some e) key) key = 1
      ∧ applyOps (fun _ => 0) (runStep (some e) key) key = 1 := by
  intro f key e
  refine ⟨by simp [applyOps, runStep, applyOp], by simp [applyOps, runStep, applyOp], ?_,
    by simp [applyOps, runStep, applyOp], by simp [applyOps, runStep, applyOp]⟩
  intro k'
  by_cases h : k' = key <;> simp [applyOps, runStep, applyOp, h]

/-- C5: the pending set holds at most one instance of any key: adding a key
already pending is a no-op, `Add` preserves distinctness, and enqueuing the
same key twice before dispatch leaves exactly one pending instance, so a
draining pass invokes `Sync` exactly once for that key. -/
theorem queue_dedup :
    ∀ (pending : List String) (key : String) (sync : String → Option String),
      pending.Nodup →
        (key ∈ pending → queueAdd pending key = pending)
        ∧ queueAdd (queueAdd pending key) key = queueAdd pending key
        ∧ (queueAdd pending key).Nodup
        ∧ (queueAdd pending key).count key = 1
        ∧ ((runDrain sync (queueAdd (queueAdd pending key) key)).1).count key = 1 := by
  intro pending key sync hnd
  have hmem : key ∈ queueAdd pending key := by
    by_cases h : key ∈ pending <;> simp [queueAdd, h]
  have hidem : queueAdd (queueAdd pending key) key = queueAdd pending key := by
    by_cases h : key ∈ pending <;> simp [queueAdd, h]
  have hnd' : (queueAdd pending key).Nodup := by
    by_cases h : key ∈ pending
    · simpa [queueAdd, h] using hnd
    · simp [queueAdd, h, List.nodup_append, hnd, List.disjoint_singleton, *]
  have hcount : (queueAdd pending key).count key = 1 :=
    List.count_eq_one_of_mem hnd' hmem
  refine ⟨fun h => by simp [queueAdd, h], hidem, hnd', hcount, ?_⟩
  rw [hidem, runDrain_fst, hcount]

/-- Witness for C5 at a concrete queue: with `"a"` pending, enqueuing `"k"`
twice leaves one pending instance and one `Sync` invocation for `"k"`. -/
theorem queue_dedup_witness :
    ("k" ∈ ["a"] → queueAdd ["a"] "k" = ["a"])
    ∧ queueAdd (queueAdd ["a"] "k") "k" = queueAdd ["a"] "k"
    ∧ (queueAdd ["a"] "k").Nodup
    ∧ (queueAdd ["a"] "k").count "k" = 1
    ∧ ((runDrain (fun _ => none) (queueAdd (queueAdd ["a"] "k") "k")).1).count "k" = 1 :=
  queue_dedup ["a"] "k" (fun _ => none) (by decide)

/-- C1, counterexample: `Enqueue(a, b)` where key extraction fails on `a`
does not enqueue `b` — the loop body executes `return` (not `continue`), so
the remaining objects of the same call are dropped, contradicting the claim
that `b` is still keyed and added. -/
theorem enqueue_isolation_counterexample :
    ¬ ("default/b" ∈ enqueueLoop KeyFunc []
        [Obj.invalid, Obj.withMeta "default" "b"]) := by
  decide

/-- C1, amended: when key extraction fails for an object, `Enqueue` reports
the failure and returns immediately: the failing object and every object
after it in the same call are skipped, while objects before it have already
been added — the whole call from the failing object onward has no effect on
the queue. -/
theorem enqueue_failure_aborts_call {α : Type} (keyF : α → Except String String)
    (pending : List String) (objs : List α) (a : α) (rest : List α) (e : String)
    (h : keyF a = Except.error e) :
    enqueueLoop keyF pending (objs ++ a :: rest) = enqueueLoop keyF pending objs := by
  induction objs generalizing pending with
  | nil => simp [enqueueLoop, h]
  | cons b objs ih => cases hb : keyF b <;> simp [enqueueLoop, hb, ih]

/-- Witness for the amended C1 at a concrete call: a successful object is
enqueued, then the failing object ends the call, dropping everything after
it. -/
theorem enqueue_failure_aborts_call_witness :
    enqueueLoop KeyFunc []
        ([Obj.withMeta "ns" "x"] ++ Obj.invalid :: [Obj.withMeta "default" "b"])
      = enqueueLoop KeyFunc [] [Obj.withMeta "ns" "x"] :=
  enqueue_failure_aborts_call KeyFunc [] [Obj.withMeta "ns" "x"] Obj.invalid
    [Obj.withMeta "default" "b"] "object has no meta" rfl

/-- C7: both constructors install the package-level default key extractor
`KeyFunc` — there is no override parameter — and `Enqueue` on any instance
uses exactly the extractor stored at construction; the default derives the
key from the namespaced identity (namespace + name). -/
theorem keyFunc_chosen_at_construction :
    ∀ (n r : String) (sf : String → Option String) (objs : List Obj)
      (t : PeriodicTaskQueue),
      (NewPeriodicTaskQueueWithLimiter n r sf).keyFunc = KeyFunc
      ∧ (NewPeriodicTaskQueue n r sf).keyFunc = KeyFunc
      ∧ ((NewPeriodicTaskQueueWithLimiter n r sf).Enqueue objs).pending
          = enqueueLoop KeyFunc [] objs
      ∧ (t.Enqueue objs).pending = enqueueLoop t.keyFunc t.pending objs
      ∧ ∀ ns name : String,
          KeyFunc (Obj.withMeta ns name)
            = Except.ok (if ns = "" then name else ns ++ "/" ++ name) :=
  fun _ _ _ _ _ => ⟨rfl, rfl, rfl, rfl, fun _ _ => rfl⟩

end TaskQueue

namespace TaskQueue

/-- Helper: invariants of every reachable state: the completion channel is
closed only with the worker stopped, `Shutdown` marks the queue closed
before anything else it does, and `Shutdown` has returned only after
observing the closed completion channel. -/
theorem reachable_inv (s : SysState) (h : Reachable s) :
    (s.workerDone = true → s.worker = WorkerPhase.stopped)
    ∧ (s.shutdownCalled = true → s.shutDown = true)
    ∧ (s.shutdownReturned = true → s.workerDone = true ∧ s.shutdownCalled = true) := by
  induction h with
  | refl => simp [initState]
  | tail _ hstep ih =>
    obtain ⟨ihA, ihB, ihC⟩ := ih
    cases hstep with
    | enqueueAdd k => exact ⟨ihA, ihB, ihC⟩
    | getItem key rest hw hq hp =>
      refine ⟨?_, ihB, ihC⟩
      intro hd
      have h1 := ihA hd
      rw [hw] at h1
      simp at h1
    | syncReturnOk key hw =>
      refine ⟨?_, ihB, ihC⟩
      intro hd
      have h1 := ihA hd
      rw [hw] at h1
      simp at h1
    | syncReturnErr key hw =>
      refine ⟨?_, ihB, ihC⟩
      intro hd
      have h1 := ihA hd
      rw [hw] at h1
      simp at h1
    | getClosed hw hq =>
      exact ⟨fun _ => rfl, ihB, fun hr => ⟨rfl, (ihC hr).2⟩⟩
    | shutdownMarksClosed hc =>
      exact ⟨ihA, fun _ => rfl, fun hr => ⟨(ihC hr).1, rfl⟩⟩
    | shutdownReturns hc hd hr =>
      exact ⟨ihA, ihB, fun _ => ⟨hd, hc⟩⟩

/-- Helper: the only step that closes the completion channel is the worker
observing that `Get` reported the queue closed, whereupon it stops. -/
theorem step_workerDone (s s' : SysState) (hstep : Step s s')
    (h0 : s.workerDone = false) (h1 : s'.workerDone = true) :
    s.worker = WorkerPhase.running ∧ s.shutDown = true
    ∧ s'.worker = WorkerPhase.stopped := by
  cases hstep with
  | getClosed hw hq => exact ⟨hw, hq, rfl⟩
  | enqueueAdd k => exact absurd (h1 : s.workerDone = true) (by simp [h0])
  | getItem key rest hw hq hp => exact absurd (h1 : s.workerDone = true) (by simp [h0])
  | syncReturnOk key hw => exact absurd (h1 : s.workerDone = true) (by simp [h0])
  | syncReturnErr key hw => exact absurd (h1 : s.workerDone = true) (by simp [h0])
  | shutdownMarksClosed hc => exact absurd (h1 : s.workerDone = true) (by simp [h0])
  | shutdownReturns hc hd hr => exact absurd (h1 : s.workerDone = true) (by simp [h0])

/-- Helper: once `Shutdown` has returned, no later step starts a `sync`
call: the invocation trace never grows again. -/
theorem frozen_aux (s s' : SysState) (h : Relation.ReflTransGen Step s s')
    (hreach : Reachable s) (hr : s.shutdownReturned = true) :
    s'.syncStarts = s.syncStarts ∧ s'.shutdownReturned = true := by
  induction h with
  | refl => exact ⟨rfl, hr⟩
  | tail hchain hstep ih =>
    obtain ⟨htr, hret⟩ := ih
    have hreach2 := Relation.ReflTransGen.trans hreach hchain
    have hinv := reachable_inv _ hreach2
    have hsd := hinv.2.1 (hinv.2.2 hret).2
    cases hstep with
    | enqueueAdd k => exact ⟨htr, hret⟩
    | getItem key rest hw hq hp =>
      rw [hq] at hsd
      simp at hsd
    | syncReturnOk key hw => exact ⟨htr, hret⟩
    | syncReturnErr key hw => exact ⟨htr, hret⟩
    | getClosed hw hq => exact ⟨htr, hret⟩
    | shutdownMarksClosed hc => exact ⟨htr, hret⟩
    | shutdownReturns hc hd hr2 => exact ⟨htr, rfl⟩

/-- C2: `Shutdown()` marks the queue closed (`ShutDown()`) before it can
return, and returns only once the worker has observed closure: in every
reachable state where `Shutdown` has returned, the queue is closed, the
completion channel is closed, and the worker loop has exited — so a `Sync`
call in progress when `Shutdown` was called has completed. After that point
no step extends the `sync` invocation trace, so no further `Sync` invocation
ever occurs; and the completion channel is closed exactly by the worker
observing that `Get` reported closure, upon which it stops. -/
theorem shutdown_graceful :
    ∀ s : SysState, Reachable s →
      (s.shutdownReturned = true →
        s.shutdownCalled = true ∧ s.shutDown = true ∧ s.workerDone = true
        ∧ s.worker = WorkerPhase.stopped)
      ∧ (∀ s' : SysState, Relation.ReflTransGen Step s s' →
          s.shutdownReturned = true → s'.syncStarts = s.syncStarts)
      ∧ (∀ s' : SysState, Step s s' → s.workerDone = false → s'.workerDone = true →
          s.worker = WorkerPhase.running ∧ s.shutDown = true
          ∧ s'.worker = WorkerPhase.stopped) := by
  intro s hreach
  have hinv := reachable_inv s hreach
  refine ⟨?_, ?_, ?_⟩
  · intro hr
    have hc := (hinv.2.2 hr).2
    have hd := (hinv.2.2 hr).1
    exact ⟨hc, hinv.2.1 hc, hd, hinv.1 hd⟩
  · intro s' hchain hr
    exact (frozen_aux s s' hchain hreach hr).1
  · intro s' hstep h0 h1
    exact step_workerDone s s' hstep h0 h1

/-- Witness for C2 at a concrete reachable state: `Shutdown` is called on an
idle queue, the worker observes closure and stops, `Shutdown` returns; the
resulting state has the queue closed, the channel closed, and the worker
stopped. -/
theorem shutdown_graceful_witness :
    (⟨[], true, true, WorkerPhase.stopped, true, true, []⟩ : SysState).shutdownCalled = true
    ∧ (⟨[], true, true, WorkerPhase.stopped, true, true, []⟩ : SysState).shutDown = true
    ∧ (⟨[], true, true, WorkerPhase.stopped, true, true, []⟩ : SysState).workerDone = true
    ∧ (⟨[], true, true, WorkerPhase.stopped, true, true, []⟩ : SysState).worker
        = WorkerPhase.stopped :=
  (shutdown_graceful (⟨[], true, true, WorkerPhase.stopped, true, true, []⟩ : SysState)
    (Relation.ReflTransGen.tail
      (Relation.ReflTransGen.tail
        (Relation.ReflTransGen.tail Relation.ReflTransGen.refl
          (Step.shutdownMarksClosed initState rfl))
        (Step.getClosed _ rfl rfl))
      (Step.shutdownReturns _ rfl rfl rfl))).1 rfl

end TaskQueue

namespace CompositeMeta

/-- Helper: `Char.ofNat` of a valid scalar value round-trips through
`toNat`. -/
theorem toNat_ofNat_valid {n : Nat} (h : n.isValidChar) : (Char.ofNat n).toNat = n := by
  simp [Char.ofNat, h, Char.ofNatAux, Char.toNat, UInt32.toNat, BitVec.toNat_ofNatLt]

/-- Helper: the code point of a lower-cased character. -/
theorem charToLower_toNat (c : Char) :
    c.toLower.toNat = if 65 ≤ c.toNat ∧ c.toNat ≤ 90 then c.toNat + 32 else c.toNat := by
  unfold Char.toLower
  by_cases h : 65 ≤ c.toNat ∧ c.toNat ≤ 90
  · have hv : (c.toNat + 32).isValidChar := Or.inl (by omega)
    simp [h, toNat_ofNat_valid hv]
  · simp [h]

/-- Helper: lower-casing fixes characters outside the upper-case range. -/
theorem charToLower_fix (d : Char) (hd : ¬(65 ≤ d.toNat ∧ d.toNat ≤ 90)) :
    d.toLower = d := by
  unfold Char.toLower
  simp [hd]

/-- Helper: `Char.toLower` is idempotent. -/
theorem charToLower_idem (c : Char) : c.toLower.toLower = c.toLower := by
  apply charToLower_fix
  rw [charToLower_toNat c]
  by_cases h2 : 65 ≤ c.toNat ∧ c.toNat ≤ 90
  · simp [h2]
    omega
  · simp [h2]

/-- C8: `createVarName` maps the empty string to itself; on any non-empty
string it replaces exactly the first rune by its lower-case form and leaves
the remaining runes unchanged, preserving the length in runes; and it is
idempotent on every string. -/
theorem createVarName_spec :
    createVarName "" = ""
    ∧ (∀ (c : Char) (rest : List Char),
        createVarName (String.mk (c :: rest)) = String.mk (Char.toLower c :: rest)
        ∧ (createVarName (String.mk (c :: rest))).data.length
            = (String.mk (c :: rest)).data.length)
    ∧ ∀ s : String, createVarName (createVarName s) = createVarName s := by
  refine ⟨rfl, fun c rest => ⟨rfl, rfl⟩, ?_⟩
  intro s
  cases s with
  | mk data =>
    cases data with
    | nil => rfl
    | cons c rest =>
      show String.mk (Char.toLower (Char.toLower c) :: rest) = String.mk (Char.toLower c :: rest)
      rw [charToLower_idem]

/-- C10: `GetCloudProviderName` returns the wrapper name stored in
`MainServices` exactly when the receiver's `Name` is a key of that map
(equivalently, when `IsMainService` holds), and panics — modelled as `none`
— for every other name; with the source's `MainServices`, the only
non-panicking name is `"BackendService"`. -/
theorem getCloudProviderName_spec :
    ∀ s : ApiService,
      ((GetCloudProviderName s).isSome = IsMainService s)
      ∧ (∀ w : String, mainServicesLookup s.Name = some w → GetCloudProviderName s = some w)
      ∧ (IsMainService s = false → GetCloudProviderName s = none)
      ∧ (s.Name = "BackendService" → GetCloudProviderName s = some "BackendServices") := by
  intro s
  refine ⟨rfl, fun w hw => hw, ?_, ?_⟩
  · intro h
    unfold IsMainService at h
    unfold GetCloudProviderName
    cases hl : mainServicesLookup s.Name with
    | none => rfl
    | some w => rw [hl] at h; simp at h
  · intro h
    unfold GetCloudProviderName
    rw [h]
    rfl

/-- Helper: along the BFS loop, every accumulated service keeps its fields
sorted by `Name`, has its name recorded in `completed`, and the accumulated
names stay distinct; hence the same holds of the final service list. -/
theorem populateLoop_inv (schemas : List (String × List (String × JField))) :
    ∀ (fuel : Nat) (queue completed : List String) (acc services : List ApiService),
      populateLoop schemas fuel queue completed acc = some services →
      (∀ svc ∈ acc, svc.Fields.Sorted svcLE) →
      (∀ svc ∈ acc, svc.Name ∈ completed) →
      (acc.map ApiService.Name).Nodup →
      (∀ svc ∈ services, svc.Fields.Sorted svcLE)
      ∧ (services.map ApiService.Name).Nodup := by
  intro fuel
  induction fuel with
  | zero =>
    intro queue completed acc services h hfs _ hnd
    cases queue with
    | nil =>
      simp [populateLoop] at h
      exact h ▸ ⟨hfs, hnd⟩
    | cons t r => simp [populateLoop] at h
  | succ fuel ih =>
    intro queue completed acc services h hfs hin hnd
    cases queue with
    | nil =>
      simp [populateLoop] at h
      exact h ▸ ⟨hfs, hnd⟩
    | cons typeName restQueue =>
      rw [populateLoop] at h
      by_cases hc : typeName ∈ completed
      · rw [if_pos hc] at h
        exact ih restQueue completed acc services h hfs hin hnd
      · rw [if_neg hc] at h
        split at h
        · exact absurd h (by simp)
        · split at h
          · exact absurd h (by simp)
          · next fields _ flds newQueue hp =>
            refine ih newQueue (typeName :: completed) _ services h ?_ ?_ ?_
            · intro svc hsvc
              rcases List.mem_append.mp hsvc with hs | hs
              · exact hfs svc hs
              · rcases List.mem_singleton.mp hs with rfl
                exact List.sorted_insertionSort svcLE flds
            · intro svc hsvc
              rcases List.mem_append.mp hsvc with hs | hs
              · exact List.mem_cons_of_mem _ (hin svc hs)
              · rcases List.mem_singleton.mp hs with rfl
                exact List.mem_cons_self _ _
            · rw [List.map_append]
              refine List.Nodup.append hnd (by simp) ?_
              intro n hn hn'
              simp [ApiService.Name] at hn'
              rcases List.mem_map.mp hn with ⟨svc, hsvc, rfl⟩
              exact hc (hn' ▸ hin svc hsvc)

/-- C9: whenever `populateApiServices` completes, the resulting
`AllApiServices` is sorted by the `Name` field — strictly increasing, since
the BFS visits each type name once — and every service's `Fields` slice is
sorted in non-decreasing order of `Name`; the output is thus independent of
the arbitrary JSON map iteration order up to these sorts. -/
theorem populateApiServices_sorted :
    ∀ (schemas : List (String × List (String × JField))) (fuel : Nat)
      (services : List ApiService),
      populateApiServices schemas fuel = some services →
        services.Sorted svcLE
        ∧ List.Pairwise (fun a b : ApiService => a.Name < b.Name) services
        ∧ ∀ svc ∈ services, svc.Fields.Sorted svcLE := by
  intro schemas fuel services h
  unfold populateApiServices at h
  rcases Option.map_eq_some'.mp h with ⟨l, hl, rfl⟩
  have hinv := populateLoop_inv schemas fuel (MainServices.map Prod.fst) [] [] l hl
    (by simp) (by simp) (by simp)
  have hsorted : List.Sorted svcLE (List.insertionSort svcLE l) :=
    List.sorted_insertionSort svcLE l
  have hperm : List.Perm (List.insertionSort svcLE l) l := List.perm_insertionSort svcLE l
  have hnd : ((List.insertionSort svcLE l).map ApiService.Name).Nodup :=
    (List.Perm.nodup_iff (hperm.map ApiService.Name)).mpr hinv.2
  have hne : List.Pairwise (fun a b : ApiService => a.Name ≠ b.Name)
      (List.insertionSort svcLE l) := (List.pairwise_map).mp hnd
  refine ⟨hsorted, ?_, ?_⟩
  · exact (hsorted.and hne).imp fun hab => lt_of_le_of_ne hab.1 hab.2
  · intro svc hsvc
    exact hinv.1 svc ((List.mem_insertionSort svcLE).mp hsvc)

/-- Witness for C9 at a concrete two-type schema exercising a `$ref`
discovery, a `format` scalar, and both sorts. -/
theorem populateApiServices_sorted_witness :
    List.Sorted svcLE
        [ApiService.mk "BackendService" "" false "" "backendService"
          [ApiService.mk "HealthChecks" "healthChecks" false "*HealthCheck" "" [],
           ApiService.mk "Port" "port" false "int64" "" []],
         ApiService.mk "HealthCheck" "" false "" "healthCheck"
          [ApiService.mk "Name" "name" false "string" "" []]]
    ∧ List.Pairwise (fun a b : ApiService => a.Name < b.Name)
        [ApiService.mk "BackendService" "" false "" "backendService"
          [ApiService.mk "HealthChecks" "healthChecks" false "*HealthCheck" "" [],
           ApiService.mk "Port" "port" false "int64" "" []],
         ApiService.mk "HealthCheck" "" false "" "healthCheck"
          [ApiService.mk "Name" "name" false "string" "" []]]
    ∧ ∀ svc ∈ ([ApiService.mk "BackendService" "" false "" "backendService"
          [ApiService.mk "HealthChecks" "healthChecks" false "*HealthCheck" "" [],
           ApiService.mk "Port" "port" false "int64" "" []],
         ApiService.mk "HealthCheck" "" false "" "healthCheck"
          [ApiService.mk "Name" "name" false "string" "" []]] : List ApiService),
        List.Sorted svcLE svc.Fields :=
  populateApiServices_sorted
    [("BackendService",
       [("port", JField.mk none (some "integer") (some "int32") none none),
        ("healthChecks", JField.mk (some "HealthCheck") none none none none)]),
     ("HealthCheck", [("name", JField.mk none (some "string") none none none)])]
    3 _
    (by simp +decide [populateApiServices, populateLoop, lookupSchema, processFields,
      getGoType, stringsTitle, createVarName, List.insertionSort, List.orderedInsert,
      svcLE, ApiService.Name])

/-- Witness for C10: the sole `MainServices` entry succeeds; a service name
outside the map panics (`none`). -/
theorem getCloudProviderName_spec_witness :
    GetCloudProviderName (ApiService.mk "BackendService" "" false "" "" []) = some "BackendServices"
    ∧ GetCloudProviderName (ApiService.mk "UrlMap" "" false "" "" []) = none :=
  ⟨(getCloudProviderName_spec (ApiService.mk "BackendService" "" false "" "" [])).2.2.2 rfl,
   (getCloudProviderName_spec (ApiService.mk "UrlMap" "" false "" "" [])).2.2.1 rfl⟩

end CompositeMeta
